import Mathlib

deriving instance DecidableEq for Except

/-!
Verification of the AutoTrader data-normalization pipeline.

The development shallowly embeds the repository's own logic:
the schema normalizer `_normalize_ohlcv` of src/data/fetch_akshare_data.py,
the normalization tail and retry loop of `fetch_daily` of
src/data/fetch_tushare_data.py, and `get_env` of src/framework/secrets.py.

External pandas cell-level parsers (`pd.to_datetime` on one value,
`pd.to_numeric(errors="coerce")` on one value) are modelled as parameters
`pdt pnum : α → Option Int` over an abstract cell type `α`: `none` means the
external parser fails on that cell. Timestamps are modelled as integers.
-/

namespace AutoTrader

/-- A vendor-shaped raw table: string column headers and rows of cells of type
`α`, one cell per column, positionally aligned with `cols`. -/
structure RawTable (α : Type) where
  cols : List String
  rows : List (List α)
deriving Repr

/-- The failure modes of the normalization code: the `ValueError` of
`_normalize_ohlcv` (the SchemaMismatch of the design, carrying the raw table's
actual column list as its diagnostic), a pandas `KeyError` on column selection,
and the error raised by `pd.to_datetime` on an unparseable value. -/
inductive NormError
  | schemaMismatch (cols : List String)
  | keyError
  | dateTimeParseError
deriving Repr, DecidableEq

/-- One output row: a parsed datetime plus the five value cells
(open, high, low, close, volume). -/
structure CanonRow (β : Type) where
  dt : Int
  op : β
  hi : β
  lo : β
  cl : β
  vol : β
deriving Repr, DecidableEq

/-- An output table: the column headers together with the rows. -/
structure CanonTable (β : Type) where
  cols : List String
  rows : List (CanonRow β)
deriving Repr, DecidableEq

/-- Option-valued map over a list: succeeds only when every element maps
successfully, the all-or-nothing behaviour of a column-wise pandas operation. -/
def mapO (f : σ → Option τ) : List σ → Option (List τ)
  | [] => some []
  | x :: xs =>
    match f x, mapO f xs with
    | some y, some ys => some (y :: ys)
    | _, _ => none

/-- The four built-in candidate column mappings of `_normalize_ohlcv`
(src/data/fetch_akshare_data.py lines 26-34), in their declaration order. -/
def candidate_maps : List (List (String × String)) :=
  [[("日期", "datetime"), ("开盘", "open"), ("最高", "high"), ("最低", "low"),
    ("收盘", "close"), ("成交量", "volume")],
   [("date", "datetime"), ("open", "open"), ("high", "high"), ("low", "low"),
    ("close", "close"), ("volume", "volume")],
   [("日期", "datetime"), ("开盘", "open"), ("最高", "high"), ("最低", "low"),
    ("收盘", "close"), ("成交量(手)", "volume")],
   [("日期", "datetime"), ("开盘", "open"), ("最高", "high"), ("最低", "low"),
    ("收盘", "close"), ("成交量(股)", "volume")]]

/-- The second built-in candidate (English headers), named for reuse. -/
def english_map : List (String × String) :=
  [("date", "datetime"), ("open", "open"), ("high", "high"), ("low", "low"),
   ("close", "close"), ("volume", "volume")]

/-- The key set of a candidate mapping (`mp.keys()`). -/
def mapKeys (mp : List (String × String)) : List String := mp.map Prod.fst

/-- Python line 39: `all(col in df.columns for col in mp.keys())`. -/
def mpMatches (cols : List String) (mp : List (String × String)) : Bool :=
  (mapKeys mp).all (fun k => cols.contains k)

/-- Lines 35-36: `candidate_maps` with the caller mapping inserted at the front.
Python's `if mapping:` treats an empty dict as absent, so an empty custom
mapping is not inserted. -/
def buildCandidates (mapping : Option (List (String × String))) :
    List (List (String × String)) :=
  match mapping with
  | some mp => if mp.isEmpty then candidate_maps else mp :: candidate_maps
  | none => candidate_maps

/-- Lines 38-41: scan the candidates in order, selecting the first whose whole
key set is contained in the column list. -/
def findMap (cols : List String) (cands : List (List (String × String))) :
    Option (List (String × String)) :=
  cands.find? (mpMatches cols)

/-- The mapping `_normalize_ohlcv` ends up applying, as a function of the raw
column list and the optional caller mapping. -/
def selectedMapping (cols : List String)
    (mapping : Option (List (String × String))) :
    Option (List (String × String)) :=
  findMap cols (buildCandidates mapping)

/-- The claim-side candidate list, following the specification text only: the
caller-supplied custom mapping first whenever one is supplied, then the
built-ins; the text states no emptiness caveat. -/
def specCandidateList (mapping : Option (List (String × String))) :
    List (List (String × String)) :=
  match mapping with
  | some mp => mp :: candidate_maps
  | none => candidate_maps

/-- The claim-side selection: first match over `specCandidateList`. -/
def specSelected (cols : List String)
    (mapping : Option (List (String × String))) :
    Option (List (String × String)) :=
  (specCandidateList mapping).find? (mpMatches cols)

/-- `df.rename(columns=mp)` on one column name: renamed when the name is a key
of the mapping, kept otherwise. -/
def renameCol (mp : List (String × String)) (c : String) : String :=
  match mp.lookup c with
  | some c2 => c2
  | none => c

/-- `df.rename(columns=mp)` on the header list. -/
def renameCols (mp : List (String × String)) (cols : List String) : List String :=
  cols.map (renameCol mp)

/-- Line 46: the canonical column list. -/
def use_cols : List String := ["datetime", "open", "high", "low", "close", "volume"]

/-- Position of a column name in a header list. -/
def colIdx (cols : List String) (c : String) : Option Nat :=
  cols.findIdx? (fun c2 => c2 == c)

/-- `df[cs]` on a single row: for each requested column name, the cell at that
column's position. -/
def selectRow (cols : List String) (row : List α) (cs : List String) :
    Option (List α) :=
  mapO (fun c => (colIdx cols c).bind (fun i => row.get? i)) cs

/-- Row-wise effect of lines 48-51: `pd.to_datetime` on the datetime cell, whose
failure fails the row (hence, through `mapO`, the whole call), followed by
`pd.to_numeric(errors="coerce")` on each of the five value cells, whose failure
degrades that one cell to the missing-value marker `none`. -/
def parseRow (pdt pnum : α → Option Int) : List α → Option (CanonRow (Option Int))
  | [d, o, h, l, c, v] =>
    (pdt d).map (fun dd => ⟨dd, pnum o, pnum h, pnum l, pnum c, pnum v⟩)
  | _ => none

/-- Insert into a list sorted ascending on the key, before the first element
whose key is not smaller. -/
def insertOn (key : ρ → Int) (r : ρ) : List ρ → List ρ
  | [] => [r]
  | x :: xs => if key x < key r then x :: insertOn key r xs else r :: x :: xs

/-- `df.sort_values`: ascending sort on the given key. -/
def sortOn (key : ρ → Int) : List ρ → List ρ
  | [] => []
  | r :: rs => insertOn key r (sortOn key rs)

/-- Shallow embedding of `_normalize_ohlcv` (src/data/fetch_akshare_data.py,
lines 18-53): pick the first matching candidate mapping (else the
SchemaMismatch ValueError carrying the raw columns), rename, project to
`use_cols` (a missing column is a pandas KeyError), parse the datetime column
fatally and coerce the five numeric columns cell-wise, then sort ascending by
datetime. -/
def _normalize_ohlcv (pdt pnum : α → Option Int) (t : RawTable α)
    (mapping : Option (List (String × String))) :
    Except NormError (CanonTable (Option Int)) :=
  match findMap t.cols (buildCandidates mapping) with
  | none => Except.error (NormError.schemaMismatch t.cols)
  | some mp =>
    if use_cols.all (fun c => (renameCols mp t.cols).contains c) then
      match mapO (fun r => selectRow (renameCols mp t.cols) r use_cols) t.rows with
      | none => Except.error NormError.keyError
      | some sel =>
        match mapO (parseRow pdt pnum) sel with
        | none => Except.error NormError.dateTimeParseError
        | some prs => Except.ok ⟨use_cols, sortOn CanonRow.dt prs⟩
    else Except.error NormError.keyError

/-- The fixed rename mapping of `fetch_daily` (src/data/fetch_tushare_data.py,
lines 73-82). -/
def tushare_map : List (String × String) :=
  [("trade_date", "datetime"), ("open", "open"), ("high", "high"),
   ("low", "low"), ("close", "close"), ("vol", "volume")]

/-- The five value columns selected together with datetime on line 85. -/
def value_cols : List String := ["open", "high", "low", "close", "volume"]

/-- Assemble an output row from a parsed datetime and the five selected value
cells. -/
def rowToCanon (dt : Int) : List α → Option (CanonRow α)
  | [o, h, l, c, v] => some ⟨dt, o, h, l, c, v⟩
  | _ => none

/-- Shallow embedding of the normalization tail of `fetch_daily`
(src/data/fetch_tushare_data.py, lines 72-86): rename with the fixed mapping,
parse the datetime column (a missing column is a pandas KeyError, an
unparseable value an error), sort ascending by datetime, then project to the
six canonical columns. The five value columns are not numerically coerced, so
their cells keep the cell type `α`. -/
def fetch_daily_norm (pdt : α → Option Int) (t : RawTable α) :
    Except NormError (CanonTable α) :=
  match colIdx (renameCols tushare_map t.cols) "datetime" with
  | none => Except.error NormError.keyError
  | some i =>
    match mapO (fun r => ((r.get? i).bind pdt).map (fun d => (d, r))) t.rows with
    | none => Except.error NormError.dateTimeParseError
    | some drs =>
      if value_cols.all (fun c => (renameCols tushare_map t.cols).contains c) then
        match mapO
            (fun dr => (selectRow (renameCols tushare_map t.cols) dr.2 value_cols).bind
              (rowToCanon dr.1))
            (sortOn Prod.fst drs) with
        | none => Except.error NormError.keyError
        | some rows => Except.ok ⟨use_cols, rows⟩
      else Except.error NormError.keyError

/-- Outcome of the `fetch_daily` retry loop: a successful response, the
re-raise of the last vendor exception, or the for-else RuntimeError (reachable
only when `retry_count = 0`). -/
inductive FetchResult (ε δ : Type)
  | ok (d : δ)
  | err (e : ε)
  | exhausted
deriving Repr, DecidableEq

/-- The body of the retry loop of `fetch_daily` (src/data/fetch_tushare_data.py,
lines 61-70): `call attempt` models the outcome of `pro.daily(...)` on that
attempt; `fuel` counts the remaining iterations of `range(retry_count)`. On
failure of the last allowed attempt the exception is re-raised; otherwise the
next attempt follows immediately (the loop performs no delay operation). -/
def retryGo (call : Nat → Except ε δ) (retry_count : Nat) :
    Nat → Nat → FetchResult ε δ
  | 0, _ => FetchResult.exhausted
  | fuel + 1, attempt =>
    match call attempt with
    | Except.ok d => FetchResult.ok d
    | Except.error e =>
      if attempt + 1 = retry_count then FetchResult.err e
      else retryGo call retry_count fuel (attempt + 1)

/-- The whole retry loop, starting at attempt 0 with `retry_count` iterations
available. -/
def retryFetch (call : Nat → Except ε δ) (retry_count : Nat) : FetchResult ε δ :=
  retryGo call retry_count retry_count 0

/-- The declared default of the `retry_count` parameter (line 37). -/
def default_retry_count : Nat := 3

/-- Shallow embedding of `get_env` (src/framework/secrets.py, lines 5-11):
`env` models `os.getenv` over the process environment after `load_dotenv`;
Python's `if not v:` turns both an absent variable and an empty-string value
into a `None` result. The function is total: it raises nothing. -/
def get_env (env : String → Option String) (name : String) : Option String :=
  match env name with
  | none => none
  | some v => if v = "" then none else some v

/-! Helper lemmas about `List.find?`, `mapO`, `selectRow` and `sortOn`. -/

/-- `List.find?` returns the element at the first position satisfying the
predicate. -/
theorem find?_eq_get_of_first {β : Type} (p : β → Bool) (l : List β) (i : Nat)
    (hi : i < l.length) (hp : p (l.get ⟨i, hi⟩) = true)
    (hfirst : ∀ j (hj : j < l.length), j < i → p (l.get ⟨j, hj⟩) = false) :
    l.find? p = some (l.get ⟨i, hi⟩) := by
  induction l generalizing i with
  | nil => simp at hi
  | cons x xs ih =>
    cases i with
    | zero =>
      simp only [List.get] at hp
      simp [List.find?, hp]
    | succ n =>
      have hx : p x = false := by
        have := hfirst 0 (by simp) (Nat.succ_pos n)
        simpa using this
      have hn : n < xs.length := by simpa using hi
      have hpn : p (xs.get ⟨n, hn⟩) = true := by simpa using hp
      have hfn : ∀ j (hj : j < xs.length), j < n → p (xs.get ⟨j, hj⟩) = false := by
        intro j hj hlt
        have := hfirst (j + 1) (by simpa using Nat.succ_lt_succ hj)
          (Nat.succ_lt_succ hlt)
        simpa using this
      simp only [List.find?, hx]
      simpa using ih n hn hpn hfn

/-- A successful `mapO` run relates input and output elementwise. -/
theorem mapO_forall₂ (f : σ → Option τ) (l : List σ) (l2 : List τ)
    (h : mapO f l = some l2) : List.Forall₂ (fun a b => f a = some b) l l2 := by
  induction l generalizing l2 with
  | nil =>
    simp only [mapO] at h
    cases h
    exact List.Forall₂.nil
  | cons x xs ih =>
    simp only [mapO] at h
    cases hx : f x with
    | none => rw [hx] at h; simp at h
    | some y =>
      rw [hx] at h
      cases hxs : mapO f xs with
      | none => rw [hxs] at h; simp at h
      | some ys =>
        rw [hxs] at h
        cases h
        exact List.Forall₂.cons hx (ih ys hxs)

/-- A successful `mapO` run preserves the length. -/
theorem mapO_length (f : σ → Option τ) (l : List σ) (l2 : List τ)
    (h : mapO f l = some l2) : l2.length = l.length :=
  (List.Forall₂.length_eq (mapO_forall₂ f l l2 h)).symm

/-- `mapO` fails as soon as one element fails. -/
theorem mapO_eq_none_of_mem (f : σ → Option τ) (l : List σ) (a : σ)
    (ha : a ∈ l) (hf : f a = none) : mapO f l = none := by
  induction l with
  | nil => simp at ha
  | cons x xs ih =>
    rcases List.mem_cons.mp ha with h | h
    · subst h
      simp [mapO, hf]
    · simp only [mapO, ih h]
      cases f x <;> rfl

/-- `mapO` of a pointwise-identity function is the identity. -/
theorem mapO_eq_some_id (f : σ → Option σ) (l : List σ)
    (h : ∀ a ∈ l, f a = some a) : mapO f l = some l := by
  induction l with
  | nil => rfl
  | cons x xs ih =>
    have hx : f x = some x := h x (List.mem_cons_self x xs)
    have hxs : mapO f xs = some xs := ih (fun a ha => h a (List.mem_cons_of_mem x ha))
    simp [mapO, hx, hxs]

/-- Each member of the right list of a `Forall₂` has a related member on the
left. -/
theorem forall₂_mem_right {R : σ → τ → Prop} {l : List σ} {l2 : List τ}
    (hf : List.Forall₂ R l l2) (b2 : τ) (hb2 : b2 ∈ l2) :
    ∃ b ∈ l, R b b2 := by
  induction hf with
  | nil => simp at hb2
  | @cons a a2 l l2 hR hf ih =>
    rcases List.mem_cons.mp hb2 with h | h
    · subst h
      exact ⟨a, List.mem_cons_self a l, hR⟩
    · rcases ih h with ⟨b, hb, hRb⟩
      exact ⟨b, List.mem_cons_of_mem a hb, hRb⟩

/-- Pairwise facts transfer along an elementwise relation. -/
theorem pairwise_of_forall₂ {R : σ → τ → Prop} {S : σ → σ → Prop}
    {T : τ → τ → Prop} {l : List σ} {l2 : List τ}
    (hST : ∀ a b a2 b2, R a a2 → R b b2 → S a b → T a2 b2)
    (hf : List.Forall₂ R l l2) (hp : l.Pairwise S) : l2.Pairwise T := by
  induction hf with
  | nil => exact List.Pairwise.nil
  | @cons a a2 l l2 hR hf ih =>
    rcases List.pairwise_cons.mp hp with ⟨hS, hp2⟩
    refine List.pairwise_cons.mpr ⟨?_, ih hp2⟩
    intro b2 hb2
    rcases forall₂_mem_right hf b2 hb2 with ⟨b, hb, hRb⟩
    exact hST a b a2 b2 hR hRb (hS b hb)

/-- Inserting is a permutation of consing. -/
theorem insertOn_perm (key : ρ → Int) (r : ρ) (l : List ρ) :
    List.Perm (insertOn key r l) (r :: l) := by
  induction l with
  | nil => exact List.Perm.refl _
  | cons x xs ih =>
    by_cases h : key x < key r
    · simp only [insertOn, if_pos h]
      exact List.Perm.trans (List.Perm.cons x ih) (List.Perm.swap r x xs)
    · simp only [insertOn, if_neg h]
      exact List.Perm.refl _

/-- Sorting is a permutation of the input. -/
theorem sortOn_perm (key : ρ → Int) (l : List ρ) :
    List.Perm (sortOn key l) l := by
  induction l with
  | nil => exact List.Perm.refl _
  | cons x xs ih =>
    exact List.Perm.trans (insertOn_perm key x (sortOn key xs)) (List.Perm.cons x ih)

/-- Sorting preserves the length. -/
theorem sortOn_length (key : ρ → Int) (l : List ρ) :
    (sortOn key l).length = l.length :=
  (sortOn_perm key l).length_eq

/-- Members of an insertion come from the inserted element or the list. -/
theorem mem_insertOn (key : ρ → Int) (r x : ρ) (l : List ρ)
    (hx : x ∈ insertOn key r l) : x = r ∨ x ∈ l :=
  (List.mem_cons.mp ((insertOn_perm key r l).subset hx))

/-- Inserting into an ascending list keeps it ascending. -/
theorem insertOn_pairwise (key : ρ → Int) (r : ρ) (l : List ρ)
    (hl : l.Pairwise (fun a b => key a ≤ key b)) :
    (insertOn key r l).Pairwise (fun a b => key a ≤ key b) := by
  induction l with
  | nil => simp [insertOn]
  | cons x xs ih =>
    rcases List.pairwise_cons.mp hl with ⟨hx, hxs⟩
    by_cases h : key x < key r
    · simp only [insertOn, if_pos h]
      refine List.pairwise_cons.mpr ⟨?_, ih hxs⟩
      intro y hy
      rcases mem_insertOn key r y xs hy with h2 | h2
      · subst h2; exact le_of_lt h
      · exact hx y h2
    · simp only [insertOn, if_neg h]
      refine List.pairwise_cons.mpr ⟨?_, hl⟩
      intro y hy
      rcases List.mem_cons.mp hy with h2 | h2
      · subst h2; exact le_of_not_lt h
      · exact le_trans (le_of_not_lt h) (hx y h2)

/-- The result of `sortOn` is ascending on the key. -/
theorem sortOn_pairwise (key : ρ → Int) (l : List ρ) :
    (sortOn key l).Pairwise (fun a b => key a ≤ key b) := by
  induction l with
  | nil => exact List.Pairwise.nil
  | cons x xs ih => exact insertOn_pairwise key x (sortOn key xs) ih

/-- When a candidate mapping has been found, the normalizer never reports a
SchemaMismatch. -/
theorem norm_ne_schema_of_found (pdt pnum : α → Option Int) (t : RawTable α)
    (mapping : Option (List (String × String))) (mp : List (String × String))
    (h : findMap t.cols (buildCandidates mapping) = some mp) (cs : List String) :
    _normalize_ohlcv pdt pnum t mapping ≠
      Except.error (NormError.schemaMismatch cs) := by
  unfold _normalize_ohlcv
  rw [h]
  simp only
  split
  · split
    · simp
    · split
      · simp
      · simp
  · simp

/-- Any successful run of the akshare normalizer produces the canonical header
list and rows sorted by the datetime key. -/
theorem norm_ok_shape (pdt pnum : α → Option Int) (t : RawTable α)
    (mapping : Option (List (String × String))) (tbl : CanonTable (Option Int))
    (h : _normalize_ohlcv pdt pnum t mapping = Except.ok tbl) :
    ∃ prs, tbl = ⟨use_cols, sortOn CanonRow.dt prs⟩ := by
  unfold _normalize_ohlcv at h
  repeat' split at h
  all_goals try exact Except.noConfusion h
  rename_i prs hprs
  exact ⟨prs, (Except.ok.inj h).symm⟩

/-- A selected-and-assembled tushare row keeps the datetime of its source
pair. -/
theorem tuRow_dt (cols2 : List String) (dr : Int × List β) (row : CanonRow β)
    (h : (selectRow cols2 dr.2 value_cols).bind (rowToCanon dr.1) = some row) :
    row.dt = dr.1 := by
  cases hs : selectRow cols2 dr.2 value_cols with
  | none => rw [hs] at h; simp at h
  | some cells =>
    rw [hs] at h
    simp only [Option.some_bind] at h
    unfold rowToCanon at h
    split at h
    · cases h; rfl
    · simp at h

/-- Any successful run of the tushare normalization tail produces the canonical
header list and rows ascending on datetime. -/
theorem tu_ok_shape (pdt : β → Option Int) (t : RawTable β) (tbl : CanonTable β)
    (h : fetch_daily_norm pdt t = Except.ok tbl) :
    tbl.cols = use_cols ∧ tbl.rows.Pairwise (fun a b => a.dt ≤ b.dt) := by
  unfold fetch_daily_norm at h
  repeat' split at h
  all_goals try exact Except.noConfusion h
  rename_i x1 drs hdrs hcond x2 rows hrows
  cases Except.ok.inj h
  refine ⟨rfl, ?_⟩
  refine pairwise_of_forall₂ (R := fun (dr : Int × List β) (row : CanonRow β) =>
      (selectRow (renameCols tushare_map t.cols) dr.2 value_cols).bind
        (rowToCanon dr.1) = some row)
    (S := fun (a b : Int × List β) => a.1 ≤ b.1) ?_ (mapO_forall₂ _ _ _ hrows) ?_
  · intro a b a2 b2 hRa hRb hab
    rw [tuRow_dt _ a a2 hRa, tuRow_dt _ b b2 hRb]
    exact hab
  · exact sortOn_pairwise Prod.fst drs

/-! Concrete inputs reused by the witnesses below. -/

/-- The identity cell parser on integer cells: every cell parses to itself. -/
def pdtId : Int → Option Int := fun n => some n

/-- The Chinese header list of the first built-in candidate. -/
def zh_cols : List String := ["日期", "开盘", "最高", "最低", "收盘", "成交量"]

/-- A two-row akshare-shaped table whose rows arrive in descending date
order. -/
def akTable : RawTable Int :=
  ⟨zh_cols, [[20240102, 10, 11, 9, 10, 100], [20240101, 9, 10, 8, 9, 50]]⟩

/-- A two-row tushare-shaped table (with an extraneous `ts_code` column) whose
rows arrive in descending date order. -/
def tuTable : RawTable Int :=
  ⟨["ts_code", "trade_date", "open", "high", "low", "close", "vol"],
   [[1, 20240102, 10, 11, 9, 10, 100], [1, 20240101, 9, 10, 8, 9, 50]]⟩

/-! The claims. -/

/-- The exact column list of the English-headers table used below. -/
def en_cols : List String := ["date", "open", "high", "low", "close", "volume"]

/-- C1, counterexample: the claim quantifies over every optional custom
mapping, and the empty mapping refutes it. The empty mapping trivially matches
any column set, so per the claim it would sit at the front of the scanned list
and win; the code instead ignores a falsy (empty) custom mapping and selects
the English built-in candidate. -/
theorem C1_counterexample :
    mpMatches en_cols [] = true ∧
    specSelected en_cols (some []) = some [] ∧
    selectedMapping en_cols (some []) = some english_map ∧
    english_map ≠ ([] : List (String × String)) := by decide

/-- C1 (amended): the scanned candidate list is the caller-supplied custom
mapping first — whenever that mapping is nonempty; an empty custom mapping is
ignored — followed by the built-in candidates in declaration order, and the
normalizer selects the first candidate of the list whose entire key set is
contained in the raw table's columns; when two candidates match, the
earlier-listed one is applied. -/
theorem C1_first_match (mapping : Option (List (String × String)))
    (cols : List String) (i : Nat) (hi : i < (buildCandidates mapping).length)
    (hp : mpMatches cols ((buildCandidates mapping).get ⟨i, hi⟩) = true)
    (hfirst : ∀ j (hj : j < (buildCandidates mapping).length), j < i →
      mpMatches cols ((buildCandidates mapping).get ⟨j, hj⟩) = false) :
    selectedMapping cols mapping = some ((buildCandidates mapping).get ⟨i, hi⟩) ∧
    (∀ mp : List (String × String), mp ≠ [] →
      buildCandidates (some mp) = mp :: candidate_maps) := by
  constructor
  · exact find?_eq_get_of_first (mpMatches cols) _ i hi hp hfirst
  · intro mp h
    cases mp with
    | nil => exact absurd rfl h
    | cons a l => rfl

/-- C1, witness: on a table with the Chinese headers and no custom mapping, the
first built-in candidate is selected. -/
theorem C1_first_match_witness :
    selectedMapping ["日期", "开盘", "最高", "最低", "收盘", "成交量"] none =
      some ((buildCandidates none).get ⟨0, by decide⟩) :=
  (C1_first_match none ["日期", "开盘", "最高", "最低", "收盘", "成交量"] 0
    (by decide) (by decide) (fun j hj hlt => absurd hlt (Nat.not_lt_zero j))).1

/-- C2: the normalizer fails with the SchemaMismatch error carrying exactly the
raw table's column list if and only if no candidate mapping's key set is fully
contained in the raw columns; moreover any SchemaMismatch it ever reports
carries the raw table's actual column list. Failure of an `Except` computation
produces no table at all, so no partial result exists. -/
theorem C2_schema_mismatch (pdt pnum : α → Option Int) (t : RawTable α)
    (mapping : Option (List (String × String))) :
    (_normalize_ohlcv pdt pnum t mapping =
        Except.error (NormError.schemaMismatch t.cols) ↔
      ∀ mp ∈ buildCandidates mapping, mpMatches t.cols mp = false) ∧
    ∀ cs, _normalize_ohlcv pdt pnum t mapping =
        Except.error (NormError.schemaMismatch cs) → cs = t.cols := by
  have hchar : ∀ (hall : ∀ mp ∈ buildCandidates mapping,
      mpMatches t.cols mp = false),
      _normalize_ohlcv pdt pnum t mapping =
        Except.error (NormError.schemaMismatch t.cols) := by
    intro hall
    have hnone : findMap t.cols (buildCandidates mapping) = none := by
      refine List.find?_eq_none.mpr ?_
      intro x hx
      rw [hall x hx]
      simp
    unfold _normalize_ohlcv
    rw [hnone]
  constructor
  · constructor
    · intro h
      intro mp hmem
      by_contra hne
      have hmp : mpMatches t.cols mp = true := by
        cases hb : mpMatches t.cols mp
        · exact absurd hb hne
        · rfl
      have hsome : (findMap t.cols (buildCandidates mapping)).isSome := by
        unfold findMap
        rw [List.find?_isSome]
        exact ⟨mp, hmem, hmp⟩
      rcases Option.isSome_iff_exists.mp hsome with ⟨mp2, hmp2⟩
      exact norm_ne_schema_of_found pdt pnum t mapping mp2 hmp2 t.cols h
    · exact hchar
  · intro cs h
    cases hf : findMap t.cols (buildCandidates mapping) with
    | none =>
      unfold _normalize_ohlcv at h
      rw [hf] at h
      simp only [Except.error.injEq, NormError.schemaMismatch.injEq] at h
      exact h.symm
    | some mp2 =>
      exact absurd h (norm_ne_schema_of_found pdt pnum t mapping mp2 hf cs)

/-- C2, witness: a table whose sole column is `foo` matches no candidate, and
the normalizer reports a SchemaMismatch carrying that column list. -/
theorem C2_schema_mismatch_witness :
    _normalize_ohlcv (fun n : Int => some n) (fun n => some n)
      ⟨["foo"], []⟩ none =
      Except.error (NormError.schemaMismatch ["foo"]) :=
  (C2_schema_mismatch (fun n : Int => some n) (fun n => some n)
    ⟨["foo"], []⟩ none).1.mpr (by decide)

/-- C3: every table returned by either vendor's normalization carries exactly
the six canonical columns datetime, open, high, low, close, volume in that
fixed order, whatever candidate mapping matched and whatever extraneous
columns the input had. -/
theorem C3_column_invariant (pdt pnum : α → Option Int) (pdt2 : β → Option Int)
    (t : RawTable α) (t2 : RawTable β)
    (mapping : Option (List (String × String)))
    (tbl : CanonTable (Option Int)) (tbl2 : CanonTable β) :
    (_normalize_ohlcv pdt pnum t mapping = Except.ok tbl →
      tbl.cols = use_cols) ∧
    (fetch_daily_norm pdt2 t2 = Except.ok tbl2 → tbl2.cols = use_cols) ∧
    use_cols = ["datetime", "open", "high", "low", "close", "volume"] ∧
    use_cols.length = 6 := by
  refine ⟨?_, ?_, rfl, rfl⟩
  · intro h
    rcases norm_ok_shape pdt pnum t mapping tbl h with ⟨prs, hprs⟩
    rw [hprs]
  · intro h
    exact (tu_ok_shape pdt2 t2 tbl2 h).1

/-- C3, witness: both vendors on concrete two-row tables (the tushare one with
an extraneous `ts_code` column). -/
theorem C3_column_invariant_witness :
    (⟨use_cols, [⟨20240101, some 9, some 10, some 8, some 9, some 50⟩,
       ⟨20240102, some 10, some 11, some 9, some 10, some 100⟩]⟩ :
      CanonTable (Option Int)).cols = use_cols ∧
    (⟨use_cols, [⟨20240101, 9, 10, 8, 9, 50⟩, ⟨20240102, 10, 11, 9, 10, 100⟩]⟩ :
      CanonTable Int).cols = use_cols :=
  ⟨(C3_column_invariant pdtId pdtId pdtId akTable tuTable none
      ⟨use_cols, [⟨20240101, some 9, some 10, some 8, some 9, some 50⟩,
        ⟨20240102, some 10, some 11, some 9, some 10, some 100⟩]⟩
      ⟨use_cols, [⟨20240101, 9, 10, 8, 9, 50⟩,
        ⟨20240102, 10, 11, 9, 10, 100⟩]⟩).1 (by decide),
   (C3_column_invariant pdtId pdtId pdtId akTable tuTable none
      ⟨use_cols, [⟨20240101, some 9, some 10, some 8, some 9, some 50⟩,
        ⟨20240102, some 10, some 11, some 9, some 10, some 100⟩]⟩
      ⟨use_cols, [⟨20240101, 9, 10, 8, 9, 50⟩,
        ⟨20240102, 10, 11, 9, 10, 100⟩]⟩).2.1 (by decide)⟩

/-- C4: every valid output of either vendor's normalization is ascending by
datetime: every adjacent pair of rows (indeed every pair in order) satisfies
`row i . dt ≤ row j . dt`, even when input rows arrive in descending or
arbitrary order. -/
theorem C4_sorted (pdt pnum : α → Option Int) (pdt2 : β → Option Int)
    (t : RawTable α) (t2 : RawTable β)
    (mapping : Option (List (String × String)))
    (tbl : CanonTable (Option Int)) (tbl2 : CanonTable β) :
    (_normalize_ohlcv pdt pnum t mapping = Except.ok tbl →
      tbl.rows.Pairwise (fun a b => a.dt ≤ b.dt)) ∧
    (fetch_daily_norm pdt2 t2 = Except.ok tbl2 →
      tbl2.rows.Pairwise (fun a b => a.dt ≤ b.dt)) := by
  constructor
  · intro h
    rcases norm_ok_shape pdt pnum t mapping tbl h with ⟨prs, hprs⟩
    rw [hprs]
    exact sortOn_pairwise CanonRow.dt prs
  · intro h
    exact (tu_ok_shape pdt2 t2 tbl2 h).2

/-- Selecting `use_cols` from a six-cell row under the `use_cols` header is the
identity. -/
theorem selectRow_id (r : List α) (h : r.length = 6) :
    selectRow use_cols r use_cols = some r := by
  rcases r with _ | ⟨a, _ | ⟨b, _ | ⟨c, _ | ⟨d, _ | ⟨e, _ | ⟨f, _ | ⟨g, r⟩⟩⟩⟩⟩⟩⟩ <;>
    simp only [List.length] at h <;> try omega
  rfl

/-- C5, counterexample: a one-row table whose columns are exactly the six
canonical names is matched by no candidate — the English built-in expects
`date`, not `datetime` — so normalizing it fails with SchemaMismatch. -/
theorem C5_counterexample :
    _normalize_ohlcv (fun n : Int => some n) (fun n => some n)
      ⟨["datetime", "open", "high", "low", "close", "volume"],
       [[1, 2, 3, 4, 5, 6]]⟩ none =
      Except.error (NormError.schemaMismatch
        ["datetime", "open", "high", "low", "close", "volume"]) := by decide

/-- C5 (amended): a table whose columns carry the canonical names succeeds only
with a caller-supplied mapping; without one it fails with SchemaMismatch (see
the counterexample), because the English built-in keys use `date` in place of
`datetime`. For a table whose columns are exactly those built-in English keys
`date, open, high, low, close, volume`, normalization succeeds and is a no-op
beyond renaming `date` to `datetime`, re-typing every row, and re-sorting by
datetime. -/
theorem C5_idempotence (pdt pnum : α → Option Int) (t : RawTable α)
    (hc : t.cols = en_cols) (hlen : ∀ r ∈ t.rows, r.length = 6)
    (prs : List (CanonRow (Option Int)))
    (hp : mapO (parseRow pdt pnum) t.rows = some prs) :
    _normalize_ohlcv pdt pnum t none =
      Except.ok ⟨use_cols, sortOn CanonRow.dt prs⟩ := by
  have hfind : findMap t.cols (buildCandidates none) = some english_map := by
    rw [hc]; decide
  have hren : renameCols english_map t.cols = use_cols := by
    rw [hc]; decide
  have hsel : mapO (fun r => selectRow use_cols r use_cols) t.rows =
      some t.rows := by
    refine mapO_eq_some_id _ t.rows ?_
    intro r hr
    exact selectRow_id r (hlen r hr)
  unfold _normalize_ohlcv
  rw [hfind]
  simp only [hren, hsel, hp]
  rw [if_pos (by decide : (use_cols.all fun c => use_cols.contains c) = true)]

/-- C5, witness: a concrete one-row English-headers table is renamed, re-typed
and returned unchanged. -/
theorem C5_idempotence_witness :
    _normalize_ohlcv pdtId pdtId ⟨en_cols, [[1, 2, 3, 4, 5, 6]]⟩ none =
      Except.ok ⟨use_cols, [⟨1, some 2, some 3, some 4, some 5, some 6⟩]⟩ :=
  C5_idempotence pdtId pdtId ⟨en_cols, [[1, 2, 3, 4, 5, 6]]⟩ rfl (by decide)
    [⟨1, some 2, some 3, some 4, some 5, some 6⟩] (by decide)

/-- A numeric parser on integer cells that fails exactly on negative cells,
used to exhibit the coercion tolerance. -/
def pnumPos : Int → Option Int := fun n => if n < 0 then none else some n

/-- A datetime parser on integer cells that fails exactly on the cell 0, used
to exhibit the fatal datetime policy. -/
def pdtNonzero : Int → Option Int := fun n => if n = 0 then none else some n

/-- The first built-in candidate (Chinese headers), named for the witnesses. -/
def zh_map : List (String × String) :=
  [("日期", "datetime"), ("开盘", "open"), ("最高", "high"), ("最低", "low"),
   ("收盘", "close"), ("成交量", "volume")]

/-- C6: when a candidate mapping matches and the whole parse succeeds, the
output row count equals the input row count, and each of the five numeric
cells is coerced independently of the others: whenever the datetime cell of a
row parses, the row parse succeeds no matter which numeric cells fail, a
failing cell becoming the missing-value marker `none` while every other cell
of the row keeps its own coercion result. -/
theorem C6_numeric_tolerance (pdt pnum : α → Option Int) (t : RawTable α)
    (mapping : Option (List (String × String))) (mp : List (String × String))
    (sel : List (List α)) (prs : List (CanonRow (Option Int)))
    (h1 : findMap t.cols (buildCandidates mapping) = some mp)
    (h2 : (use_cols.all fun c => (renameCols mp t.cols).contains c) = true)
    (h3 : mapO (fun r => selectRow (renameCols mp t.cols) r use_cols) t.rows =
      some sel)
    (h4 : mapO (parseRow pdt pnum) sel = some prs) :
    _normalize_ohlcv pdt pnum t mapping =
      Except.ok ⟨use_cols, sortOn CanonRow.dt prs⟩ ∧
    (sortOn CanonRow.dt prs).length = t.rows.length ∧
    ∀ (d o h l c v : α) (dd : Int), pdt d = some dd →
      parseRow pdt pnum [d, o, h, l, c, v] =
        some ⟨dd, pnum o, pnum h, pnum l, pnum c, pnum v⟩ := by
  refine ⟨?_, ?_, ?_⟩
  · unfold _normalize_ohlcv
    rw [h1]
    simp only [h3, h4]
    rw [if_pos h2]
  · rw [sortOn_length, mapO_length _ _ _ h4, mapO_length _ _ _ h3]
  · intro d o h l c v dd hd
    simp [parseRow, hd]

/-- C6, witness: a one-row Chinese-headers table whose open cell is the
unparseable value -5 produces one row whose open is the missing marker and
whose other cells are intact. -/
theorem C6_numeric_tolerance_witness :
    _normalize_ohlcv pdtId pnumPos
      ⟨zh_cols, [[20240101, -5, 11, 9, 10, 100]]⟩ none =
      Except.ok ⟨use_cols,
        [⟨20240101, none, some 11, some 9, some 10, some 100⟩]⟩ :=
  (C6_numeric_tolerance pdtId pnumPos
    ⟨zh_cols, [[20240101, -5, 11, 9, 10, 100]]⟩ none zh_map
    [[20240101, -5, 11, 9, 10, 100]]
    [⟨20240101, none, some 11, some 9, some 10, some 100⟩]
    (by decide) (by decide) (by decide) (by decide)).1

/-- C7: when a candidate mapping matches but some row's datetime cell fails to
parse, the whole normalization fails with the datetime parse error and no
output table is produced, in contrast to the per-cell tolerance of the five
numeric columns. -/
theorem C7_datetime_fatal (pdt pnum : α → Option Int) (t : RawTable α)
    (mapping : Option (List (String × String))) (mp : List (String × String))
    (sel : List (List α))
    (h1 : findMap t.cols (buildCandidates mapping) = some mp)
    (h2 : (use_cols.all fun c => (renameCols mp t.cols).contains c) = true)
    (h3 : mapO (fun r => selectRow (renameCols mp t.cols) r use_cols) t.rows =
      some sel)
    (d o h l c v : α) (hmem : [d, o, h, l, c, v] ∈ sel) (hd : pdt d = none) :
    _normalize_ohlcv pdt pnum t mapping =
      Except.error NormError.dateTimeParseError ∧
    ∀ tbl, _normalize_ohlcv pdt pnum t mapping ≠ Except.ok tbl := by
  have hrow : parseRow pdt pnum [d, o, h, l, c, v] = none := by
    simp [parseRow, hd]
  have h4 : mapO (parseRow pdt pnum) sel = none :=
    mapO_eq_none_of_mem _ sel _ hmem hrow
  have hmain : _normalize_ohlcv pdt pnum t mapping =
      Except.error NormError.dateTimeParseError := by
    unfold _normalize_ohlcv
    rw [h1]
    simp only [h3, h4]
    rw [if_pos h2]
  refine ⟨hmain, ?_⟩
  intro tbl hcontra
  rw [hmain] at hcontra
  exact Except.noConfusion hcontra

/-- C7, witness: a one-row Chinese-headers table whose date cell is the
unparseable value 0 fails whole with the datetime error. -/
theorem C7_datetime_fatal_witness :
    _normalize_ohlcv pdtNonzero pdtId
      ⟨zh_cols, [[0, 10, 11, 9, 10, 100]]⟩ none =
      Except.error NormError.dateTimeParseError :=
  (C7_datetime_fatal pdtNonzero pdtId
    ⟨zh_cols, [[0, 10, 11, 9, 10, 100]]⟩ none zh_map
    [[0, 10, 11, 9, 10, 100]] (by decide) (by decide) (by decide)
    0 10 11 9 10 100 (by decide) (by decide)).1

/-- C4, witness: both vendors on concrete tables whose rows arrive in
descending date order; the outputs are ascending. -/
theorem C4_sorted_witness :
    ([⟨20240101, some 9, some 10, some 8, some 9, some 50⟩,
      ⟨20240102, some 10, some 11, some 9, some 10, some 100⟩] :
        List (CanonRow (Option Int))).Pairwise (fun a b => a.dt ≤ b.dt) ∧
    ([⟨20240101, 9, 10, 8, 9, 50⟩, ⟨20240102, 10, 11, 9, 10, 100⟩] :
        List (CanonRow Int)).Pairwise (fun a b => a.dt ≤ b.dt) :=
  ⟨(C4_sorted pdtId pdtId pdtId akTable tuTable none
      ⟨use_cols, [⟨20240101, some 9, some 10, some 8, some 9, some 50⟩,
        ⟨20240102, some 10, some 11, some 9, some 10, some 100⟩]⟩
      ⟨use_cols, [⟨20240101, 9, 10, 8, 9, 50⟩,
        ⟨20240102, 10, 11, 9, 10, 100⟩]⟩).1 (by decide),
   (C4_sorted pdtId pdtId pdtId akTable tuTable none
      ⟨use_cols, [⟨20240101, some 9, some 10, some 8, some 9, some 50⟩,
        ⟨20240102, some 10, some 11, some 9, some 10, some 100⟩]⟩
      ⟨use_cols, [⟨20240101, 9, 10, 8, 9, 50⟩,
        ⟨20240102, 10, 11, 9, 10, 100⟩]⟩).2 (by decide)⟩

/-- The retry loop re-raises the last error when every attempt from `attempt`
on fails, provided at least one iteration remains. -/
theorem retryGo_all_fail (call : Nat → Except ε δ) (rc : Nat) (e : Nat → ε)
    (fuel : Nat) :
    ∀ attempt, fuel + attempt = rc → 1 ≤ fuel →
    (∀ i, attempt ≤ i → i < rc → call i = Except.error (e i)) →
    retryGo call rc fuel attempt = FetchResult.err (e (rc - 1)) := by
  induction fuel with
  | zero => intro attempt hfa hfuel herr; omega
  | succ f ih =>
    intro attempt hfa hfuel herr
    have hlt : attempt < rc := by omega
    have hcall : call attempt = Except.error (e attempt) :=
      herr attempt le_rfl hlt
    simp only [retryGo, hcall]
    by_cases hlast : attempt + 1 = rc
    · rw [if_pos hlast]
      have hlr : rc - 1 = attempt := by omega
      rw [hlr]
    · rw [if_neg hlast]
      exact ih (attempt + 1) (by omega) (by omega)
        (fun i hi hirc => herr i (by omega) hirc)

/-- The retry loop returns the first success, consulting no attempt beyond
it. -/
theorem retryGo_success (call : Nat → Except ε δ) (rc k : Nat) (d : δ)
    (hk : k < rc) (hcallk : call k = Except.ok d) (fuel : Nat) :
    ∀ attempt, fuel + attempt = rc → attempt ≤ k →
    (∀ i, attempt ≤ i → i < k → ∃ er, call i = Except.error er) →
    retryGo call rc fuel attempt = FetchResult.ok d := by
  induction fuel with
  | zero => intro attempt hfa hak herr; omega
  | succ f ih =>
    intro attempt hfa hak herr
    by_cases hek : attempt = k
    · subst hek
      simp only [retryGo, hcallk]
    · have hlt : attempt < k := lt_of_le_of_ne hak hek
      rcases herr attempt le_rfl hlt with ⟨er, her⟩
      simp only [retryGo, her]
      rw [if_neg (by omega : ¬attempt + 1 = rc)]
      exact ih (attempt + 1) (by omega) (by omega)
        (fun i hi hik => herr i (by omega) hik)

/-- C9: the vendor call is retried up to `retry_count` times (default 3) with
immediate re-attempt; if every attempt fails, the loop fails by re-raising the
error of the last attempt; and the first success is returned, never consulting
a later attempt: the result is unchanged under any reinterpretation of the
call on attempts after the first successful one. -/
theorem C9_retry (call : Nat → Except ε δ) (rc : Nat) :
    (∀ e : Nat → ε, 1 ≤ rc → (∀ i, i < rc → call i = Except.error (e i)) →
      retryFetch call rc = FetchResult.err (e (rc - 1))) ∧
    (∀ k d, k < rc → call k = Except.ok d →
      (∀ i, i < k → ∃ er, call i = Except.error er) →
      ∀ call2 : Nat → Except ε δ, (∀ i, i ≤ k → call2 i = call i) →
        retryFetch call2 rc = FetchResult.ok d) ∧
    default_retry_count = 3 := by
  refine ⟨?_, ?_, rfl⟩
  · intro e h1 herr
    exact retryGo_all_fail call rc e rc 0 (by omega) (by omega)
      (fun i _ hi => herr i hi)
  · intro k d hk hcallk herr call2 hagree
    refine retryGo_success call2 rc k d hk ?_ rc 0 (by omega) (Nat.zero_le k) ?_
    · rw [hagree k le_rfl]
      exact hcallk
    · intro i _ hik
      rcases herr i hik with ⟨er, her⟩
      exact ⟨er, by rw [hagree i (le_of_lt hik)]; exact her⟩

/-- C9, witness: with the default bound 3, three failing attempts surface the
last error (that of attempt 2), and a success on attempt 1 is returned. -/
theorem C9_retry_witness :
    retryFetch (fun i => (Except.error i : Except Nat Nat)) 3 =
      FetchResult.err 2 ∧
    retryFetch (fun i => if i = 1 then (Except.ok 42 : Except Nat Nat)
      else Except.error i) 3 = FetchResult.ok 42 := by
  constructor
  · exact (C9_retry (fun i => (Except.error i : Except Nat Nat)) 3).1
      (fun i => i) (by omega) (fun i hi => rfl)
  · exact (C9_retry (fun i => if i = 1 then (Except.ok 42 : Except Nat Nat)
        else Except.error i) 3).2.1 1 42 (by omega) (by decide)
      (fun i hi => ⟨i, by rw [if_neg (by omega)]⟩) _ (fun i hi => rfl)

/-- C10: the credential lookup is a total function — it raises nothing — that
returns `none` exactly when the environment variable is absent or set to the
empty string (an empty value is indistinguishable from an absent one), and
otherwise returns the variable's value. -/
theorem C10_get_env (env : String → Option String) (name : String) :
    (get_env env name = none ↔ env name = none ∨ env name = some "") ∧
    (∀ s, env name = some s → s ≠ "" → get_env env name = some s) := by
  constructor
  · constructor
    · intro h
      unfold get_env at h
      split at h
      · rename_i he
        exact Or.inl he
      · rename_i v he
        split at h
        · rename_i hv
          subst hv
          exact Or.inr he
        · exact absurd h (by simp)
    · intro h
      unfold get_env
      rcases h with h | h
      · rw [h]
      · rw [h]
        decide
  · intro s hs hne
    unfold get_env
    rw [hs]
    show (if s = "" then none else some s) = some s
    rw [if_neg hne]

/-- A sample environment: variable A holds a token, B is set to the empty
string, C is absent. -/
def envSample : String → Option String :=
  fun n => if n = "A" then some "tok" else if n = "B" then some "" else none

/-- C10, witness: a set variable is returned, while an empty and an absent one
both come back as `none`. -/
theorem C10_get_env_witness :
    get_env envSample "A" = some "tok" ∧ get_env envSample "B" = none ∧
    get_env envSample "C" = none :=
  ⟨(C10_get_env envSample "A").2 "tok" (by decide) (by decide),
   (C10_get_env envSample "B").1.mpr (Or.inr (by decide)),
   (C10_get_env envSample "C").1.mpr (Or.inl (by decide))⟩

end AutoTrader
